import Mathlib

/-!
Verification of the axial-flux motor design engine
(`AxialMotorFixedParam.py`, class `AxialMotorDesign`).

The Python code computes with IEEE doubles.  We embed it over `ℚ` in an
idealized exact-arithmetic model: a Python float value is modelled by `EF`
(a finite rational, NaN, +inf or -inf), Python comparisons on floats by
`EF.leb` / `EF.ltb` (false whenever NaN is involved), and Python float
division — which raises `ZeroDivisionError` on an exactly-zero denominator
and otherwise never fails — by `EF.div?` into `Option`.  Operations of the
engine that can raise are therefore `Option`-valued, with `none` standing
for an uncaught exception; constructor failures (`ValueError` in the code)
are an `Except DesignError` result.  Rounding/overflow of doubles is
abstracted away (all claims under study are about branch structure and
exact algebraic identities, not rounding).
-/

namespace AxialMotor

/-- Model of a Python float value: a finite rational, NaN, or ±infinity. -/
inductive EF where
  | fin (q : ℚ)
  | nan
  | inf
  | ninf
deriving DecidableEq, Repr

/-- `math.isfinite`. -/
def EF.isfinite : EF → Bool
  | .fin _ => true
  | _ => false

/-- Python `<=` on floats: false whenever NaN is involved. -/
def EF.leb : EF → EF → Bool
  | .nan, _ => false
  | _, .nan => false
  | .ninf, _ => true
  | _, .inf => true
  | .inf, _ => false
  | _, .ninf => false
  | .fin p, .fin q => decide (p ≤ q)

/-- Python `<` on floats: false whenever NaN is involved. -/
def EF.ltb : EF → EF → Bool
  | .nan, _ => false
  | _, .nan => false
  | .ninf, .ninf => false
  | .inf, .inf => false
  | .ninf, _ => true
  | _, .inf => true
  | .inf, _ => false
  | _, .ninf => false
  | .fin p, .fin q => decide (p < q)

/-- Python float multiplication (NaN-propagating, signed infinities). -/
def EF.mul : EF → EF → EF
  | .fin p, .fin q => .fin (p * q)
  | .nan, _ => .nan
  | _, .nan => .nan
  | .inf, .inf => .inf
  | .inf, .ninf => .ninf
  | .ninf, .inf => .ninf
  | .ninf, .ninf => .inf
  | .inf, .fin q => if q = 0 then .nan else if 0 < q then .inf else .ninf
  | .fin p, .inf => if p = 0 then .nan else if 0 < p then .inf else .ninf
  | .ninf, .fin q => if q = 0 then .nan else if 0 < q then .ninf else .inf
  | .fin p, .ninf => if p = 0 then .nan else if 0 < p then .ninf else .inf

/-- Python float division.  `none` models `ZeroDivisionError`, raised for an
exactly-zero finite denominator whatever the numerator (even NaN or inf). -/
def EF.div? (a b : EF) : Option EF :=
  match a, b with
  | _, .fin q =>
      if q = 0 then none
      else
        match a with
        | .fin p => some (.fin (p / q))
        | .nan => some .nan
        | .inf => some (if 0 < q then .inf else .ninf)
        | .ninf => some (if 0 < q then .ninf else .inf)
  | .nan, _ => some .nan
  | _, .nan => some .nan
  | .fin _, .inf => some (.fin 0)
  | .fin _, .ninf => some (.fin 0)
  | _, _ => some .nan

/-- Python's two-argument `max`: returns the second argument iff it is
strictly greater than the first (left-biased on ties, NaN-aware). -/
def EF.pymax (a b : EF) : EF := if EF.ltb a b then b else a

/-- `math.pi` (idealized rational stand-in for the double constant). -/
def pi : ℚ := 3.141592653589793

/-- `math.sqrt(3.0)` (idealized rational stand-in for the double value). -/
def sqrt3 : ℚ := 1.7320508075688772

/-- `MU0 = 4 * math.pi * 1e-7`. -/
def MU0 : ℚ := 4 * pi * 1e-7

/-- The `ValueError`s the constructor can raise, plus the
`ZeroDivisionError` reachable inside it. -/
inductive DesignError where
  | invalidCoils
  | invalidPoles
  | missingSpeed
  | zeroDivision
deriving DecidableEq, Repr

/-- Constructor arguments of `AxialMotorDesign.__init__`.  `Option` models
the Python `None`-or-empty-string sentinel for optional inputs; `coils` and
`poles` are taken after the source's `int(round(...))` conversion. -/
structure Inputs where
  coils : ℤ
  input_voltage : ℚ
  outer_radius : ℚ
  desired_torque : ℚ
  esc_frequency : Option ℚ := none
  turns : Option ℚ := none
  magnetic_flux_density : ℚ := 0.6
  poles : Option ℤ := none
  winding_factor : ℚ := 0.92
  mechanical_rpm : Option ℚ := none
  modulation_index : ℚ := 0.95
  input_is_vdc : Bool := false
  dual_plate : Bool := false
  phase_current_limit : Option ℚ := none
  dc_current_limit : Option ℚ := none
  esc_freq_max : Option ℚ := none
deriving Repr

/-- The constructed engine state (fields assigned by `__init__`). -/
structure Design where
  coils : ℤ
  input_voltage : ℚ
  outer_radius : ℚ
  inner_radius : ℚ
  desired_torque : ℚ
  turns : Option ℚ
  Bavg : ℚ
  kw : ℚ
  modulation_index : ℚ
  input_is_vdc : Bool
  dual_plate : Bool
  poles : ℤ
  mechanical_rpm : ℚ
  electrical_frequency_hz : ℚ
  phase_current_limit : Option ℚ
  dc_current_limit : Option ℚ
  esc_freq_max : Option ℚ
  magnets : ℤ
  min_rpm : ℚ
deriving DecidableEq, Repr, Inhabited

/-- `validate_coils`: reject a coil count not divisible by 3 (Python `%`
on ints with a positive modulus agrees with `Int.emod`). -/
def validate_coils (c : ℤ) : Except DesignError ℤ :=
  if c % 3 ≠ 0 then .error .invalidCoils else .ok c

/-- `calculate_poles`: legacy heuristic `(coils // 3) * 2`
(Python floor division = `Int.fdiv`). -/
def calculate_poles (coils : ℤ) : ℤ :=
  (coils.fdiv 3) * 2

/-- Pole resolution in `__init__`: explicit poles must be even and ≥ 4,
otherwise the legacy heuristic is used. -/
def resolvePoles (i : Inputs) : Except DesignError ℤ :=
  match i.poles with
  | some p => if p % 2 ≠ 0 ∨ p < 4 then .error .invalidPoles else .ok p
  | none => .ok (calculate_poles i.coils)

/-- Speed/frequency resolution in `__init__`: `mechanical_rpm` preferred,
else `esc_frequency`, else a `ValueError`.  Returns `(rpm, f_e)`.  The
`esc_frequency` branch divides by `poles`, which in Python raises
`ZeroDivisionError` when `poles == 0`. -/
def resolveSpeed (i : Inputs) (p : ℤ) : Except DesignError (ℚ × ℚ) :=
  match i.mechanical_rpm with
  | some r => .ok (r, ((p : ℚ) / 2) * (r / 60))
  | none =>
      match i.esc_frequency with
      | some f =>
          if p = 0 then .error .zeroDivision
          else .ok ((120 * f) / (p : ℚ), f)
      | none => .error .missingSpeed

/-- `calculate_magnets`'s `while magnets % 4 != 0: magnets += 1` loop,
written with structural fuel so it evaluates by `rfl`/`decide`.  At most 3
increments are ever needed to reach a multiple of 4, so fuel 4 makes this
exactly the source's unbounded loop (`nudge4_fuel_spec`). -/
def nudge4_fuel : Nat → ℤ → ℤ
  | 0, m => m
  | k + 1, m => if m % 4 = 0 then m else nudge4_fuel k (m + 1)

def nudge4 (m : ℤ) : ℤ := nudge4_fuel 4 m

/-- The fuelled loop, given enough fuel for the residue, lands on the
smallest multiple of 4 that is `≥` its start. -/
theorem nudge4_fuel_spec (k : Nat) :
    ∀ m : ℤ, ((4 - m % 4) % 4).toNat ≤ k →
      nudge4_fuel k m % 4 = 0 ∧ m ≤ nudge4_fuel k m ∧
        ∀ j : ℤ, m ≤ j → j % 4 = 0 → nudge4_fuel k m ≤ j := by
  induction k with
  | zero =>
      intro m hm
      have h1 : 0 ≤ m % 4 := Int.emod_nonneg m (by norm_num)
      have h2 : m % 4 < 4 := Int.emod_lt_of_pos m (by norm_num)
      have hz : m % 4 = 0 := by omega
      simp only [nudge4_fuel]
      exact ⟨hz, le_refl m, fun j hj _ => hj⟩
  | succ k ih =>
      intro m hm
      simp only [nudge4_fuel]
      by_cases h4 : m % 4 = 0
      · rw [if_pos h4]
        exact ⟨h4, le_refl m, fun j hj _ => hj⟩
      · rw [if_neg h4]
        have h1 : 0 ≤ m % 4 := Int.emod_nonneg m (by norm_num)
        have h2 : m % 4 < 4 := Int.emod_lt_of_pos m (by norm_num)
        have hstep : (m + 1) % 4 = (m % 4 + 1) % 4 := by omega
        have hfuel : ((4 - (m + 1) % 4) % 4).toNat ≤ k := by omega
        obtain ⟨ha, hb, hc⟩ := ih (m + 1) hfuel
        refine ⟨ha, by omega, fun j hj hj4 => ?_⟩
        have : m + 1 ≤ j := by omega
        exact hc j this hj4

/-- The loop's exit point for all integer starts (fuel 4 always suffices). -/
theorem nudge4_spec (m : ℤ) :
    nudge4 m % 4 = 0 ∧ m ≤ nudge4 m ∧
      ∀ j : ℤ, m ≤ j → j % 4 = 0 → nudge4 m ≤ j := by
  have h1 : 0 ≤ m % 4 := Int.emod_nonneg m (by norm_num)
  have h2 : m % 4 < 4 := Int.emod_lt_of_pos m (by norm_num)
  exact nudge4_fuel_spec 4 m (by omega)

/-- `calculate_magnets`: start at `poles * 2` and bump until divisible by 4. -/
def calculate_magnets (poles : ℤ) : ℤ :=
  nudge4 (poles * 2)

/-- `AxialMotorDesign.__init__`: validation, derived state, fail-fast
errors.  Field assignments that cannot fail are collected into the single
final record; the error order (coils, then poles, then speed) matches the
source. -/
def mkDesign (i : Inputs) : Except DesignError Design :=
  match validate_coils i.coils with
  | .error err => .error err
  | .ok coils =>
  match resolvePoles i with
  | .error err => .error err
  | .ok poles =>
  match resolveSpeed i poles with
  | .error err => .error err
  | .ok speed =>
  .ok
    { coils := coils
      input_voltage := i.input_voltage
      outer_radius := i.outer_radius
      inner_radius := i.outer_radius * 0.58
      desired_torque := i.desired_torque
      turns := i.turns
      Bavg := i.magnetic_flux_density
      kw := i.winding_factor
      modulation_index := max 0 (min 1 i.modulation_index)
      input_is_vdc := i.input_is_vdc
      dual_plate := i.dual_plate
      poles := poles
      mechanical_rpm := speed.1
      electrical_frequency_hz := speed.2
      phase_current_limit := i.phase_current_limit
      dc_current_limit := i.dc_current_limit
      esc_freq_max := i.esc_freq_max
      magnets := calculate_magnets poles
      min_rpm := speed.1 }

/-- `calculate_rotor_area`: `π (R_out² − R_in²)`. -/
def calculate_rotor_area (d : Design) : ℚ :=
  pi * (d.outer_radius ^ 2 - d.inner_radius ^ 2)

/-- `_r_av`: mean radius. -/
def r_av (d : Design) : ℚ :=
  0.5 * (d.outer_radius + d.inner_radius)

/-- `_pole_area`: rotor area divided by the pole count; in Python the float
division raises `ZeroDivisionError` when `poles == 0`. -/
def pole_area (d : Design) : Option ℚ :=
  if d.poles = 0 then none else some (calculate_rotor_area d / (d.poles : ℚ))

/-- `calculate_peak_flux_density`: `(π/2) B_avg`. -/
def calculate_peak_flux_density (d : Design) : ℚ :=
  (pi / 2) * d.Bavg

/-- `_flux_per_pole`: `Φ = B_avg * A_pole`. -/
def flux_per_pole (d : Design) : Option ℚ :=
  (pole_area d).map (fun a => d.Bavg * a)

/-- `_available_line_rms`: inverter line-line RMS fundamental. -/
def available_line_rms (d : Design) : ℚ :=
  if d.input_is_vdc then 0.612 * d.modulation_index * d.input_voltage
  else d.input_voltage

/-- `_phase_voltage_rms`: line RMS over √3. -/
def phase_voltage_rms (d : Design) : ℚ :=
  available_line_rms d / sqrt3

/-- `_emf_fit_turns`: `N = E_ph / (4.44 f_e Φ k_w)`, NaN when the
denominator is ≤ 0.  Computing `Φ` itself can raise (poles = 0). -/
def emf_fit_turns (d : Design) : Option EF := do
  let Phi ← flux_per_pole d
  let denom := 4.44 * d.electrical_frequency_hz * Phi * d.kw
  if denom ≤ 0 then pure .nan
  else pure (.fin (phase_voltage_rms d / denom))

/-- `calculate_number_of_coil_turns`: fixed turns if provided, else the
EMF fit. -/
def calculate_number_of_coil_turns (d : Design) : Option EF :=
  match d.turns with
  | some t => some (.fin t)
  | none => emf_fit_turns d

/-- `_flux_linkage`: `λ_f = N * k_w * Φ` (left-associated float product). -/
def flux_linkage (d : Design) : Option EF := do
  let N ← calculate_number_of_coil_turns d
  let Phi ← flux_per_pole d
  pure ((N.mul (.fin d.kw)).mul (.fin Phi))

/-- `_kt_Nm_per_A_single_plate`: `Kt = 1.5 * (poles // 2) * λ_f`. -/
def kt_single_plate (d : Design) : Option EF := do
  let lam ← flux_linkage d
  pure ((EF.fin (1.5 * ((d.poles.fdiv 2 : ℤ) : ℚ))).mul lam)

/-- `_kt_effective`: dual-plate multiplier. -/
def kt_effective (d : Design) : Option EF := do
  let kt ← kt_single_plate d
  pure (kt.mul (.fin (if d.dual_plate then 2 else 1)))

/-- `calculate_required_current`: `Iq = T / Kt`, NaN when `Kt <= 0`
(the Python comparison, false on NaN). -/
def calculate_required_current (d : Design) : Option EF := do
  let kt ← kt_effective d
  if kt.leb (.fin 0) then pure .nan
  else EF.div? (.fin d.desired_torque) kt

/-- `calculate_total_torque`: `Kt * Iq`. -/
def calculate_total_torque (d : Design) : Option EF := do
  let kt ← kt_effective d
  let iq ← calculate_required_current d
  pure (kt.mul iq)

/-- `calculate_airgap_shear_stress`: `T / (A * r_av)`; the Python float
division raises when `A * r_av` is exactly zero. -/
def calculate_airgap_shear_stress (d : Design) : Option ℚ :=
  let A := calculate_rotor_area d
  let r := r_av d
  if A * r = 0 then none else some (d.desired_torque / (A * r))

/-- `_shear_stress_limit` with its default `C = 0.25`. -/
def shear_stress_limit (d : Design) : ℚ :=
  0.25 * d.Bavg ^ 2 / (2 * MU0)

/-- The `N`/`Eph`/`Vll_pred` locals of `_voltage_utilization`:
`Vll_pred = √3 * (4.44 f_e N Φ k_w)` as a float expression. -/
def predicted_vll (d : Design) : Option EF := do
  let N ← calculate_number_of_coil_turns d
  let Phi ← flux_per_pole d
  let Eph := (((EF.fin (4.44 * d.electrical_frequency_hz)).mul N).mul
      (.fin Phi)).mul (.fin d.kw)
  pure ((EF.fin sqrt3).mul Eph)

/-- `_voltage_utilization`: predicted line-line EMF over available line-line
RMS; `+inf` when the available voltage is ≤ 0. -/
def voltage_utilization (d : Design) : Option EF := do
  let Vll_pred ← predicted_vll d
  let Vll_avail := available_line_rms d
  if Vll_avail ≤ 0 then pure .inf
  else EF.div? Vll_pred (.fin Vll_avail)

/-- `_max_rpm_at_vlimit`: NaN unless the utilization is finite and
positive, else `rpm / max(U, 1e-9)`. -/
def max_rpm_at_vlimit (d : Design) : Option EF := do
  let U ← voltage_utilization d
  if ¬ U.isfinite ∨ U.leb (.fin 0) then pure .nan
  else EF.div? (.fin d.mechanical_rpm) (U.pymax (.fin 1e-9))

/-- `_mechanical_power_W`: `T * ω`. -/
def mechanical_power_W (d : Design) : ℚ :=
  d.desired_torque * (2 * pi * (d.mechanical_rpm / 60))

/-- `_estimated_dc_current` with its default `assumed_efficiency = 0.9`.
The back-calculated `Vdc` divides by `max(0.612*m, 1e-9) > 0`, so the only
degeneracy is the guarded `Vdc <= 0`, yielding NaN. -/
def estimated_dc_current (d : Design) : EF :=
  let eff : ℚ := 0.9
  let Vdc : ℚ :=
    if d.input_is_vdc then d.input_voltage
    else available_line_rms d / max (0.612 * d.modulation_index) 1e-9
  let Pm := mechanical_power_W d
  if Vdc ≤ 0 ∨ eff ≤ 0 then .nan
  else .fin (Pm / (eff * Vdc))

/-- The `Mode` label chosen in `get_calculations`. -/
def modeLabel (d : Design) : String :=
  if d.turns.isSome then "Turns-limited (fixed N)" else "Voltage-limited (auto N)"

/-- The result mapping assembled by `get_calculations`.  Numeric entries
keep their values (the `_fmt` string rendering is not modelled); token
entries keep their exact strings. -/
structure Results where
  poles : ℤ
  magnets : ℤ
  inner_radius : ℚ
  outer_radius : ℚ
  rotor_area : ℚ
  airgap_shear_stress : ℚ
  minimum_rpm : ℚ
  peak_flux_density : ℚ
  number_of_coil_turns : EF
  total_torque : EF
  required_current : EF
  electrical_frequency_hz : ℚ
  mechanical_rpm : ℚ
  flux_per_pole : ℚ
  winding_factor : ℚ
  kt_eff : EF
  back_emf_const : EF
  voltage_utilization : EF
  max_rpm_at_vlimit : EF
  power_mechanical : ℚ
  estimated_dc_current : EF
  shear_stress_limit_val : ℚ
  dual_plate : Bool
  mode : String
  v_pass : String
  i_pass : String
  esc_f_pass : String
  dc_pass : String
  max_torque_at_ilimit : Option EF
deriving DecidableEq, Repr

/-- `get_calculations`: recompute every derived quantity and assemble the
result mapping; `none` models an exception escaping the query.  The
source's intermediate booleans (`v_pass`, `i_pass`, `esc_f_pass`,
`dc_pass`, `Tmax`) are inlined into the fields they feed, preserving their
values: e.g. the source's `dc_pass` is `True` unless the limit exists and
the estimate is finite, and its entry prints `"—"` in exactly the cases
matched here. -/
def get_calculations (d : Design) : Option Results := do
  let A := calculate_rotor_area d
  let Bpk := calculate_peak_flux_density d
  let Phi ← flux_per_pole d
  let N ← calculate_number_of_coil_turns d
  let lam ← flux_linkage d
  let KtE ← kt_effective d
  let Ireq ← calculate_required_current d
  let Tpred ← calculate_total_torque d
  let tauDes ← calculate_airgap_shear_stress d
  let tauLim := shear_stress_limit d
  let U ← voltage_utilization d
  let rpmV ← max_rpm_at_vlimit d
  let Pm := mechanical_power_W d
  let Idc := estimated_dc_current d
  pure
    { poles := d.poles
      magnets := d.magnets
      inner_radius := d.inner_radius
      outer_radius := d.outer_radius
      rotor_area := A
      airgap_shear_stress := tauDes
      minimum_rpm := d.mechanical_rpm
      peak_flux_density := Bpk
      number_of_coil_turns := N
      total_torque := Tpred
      required_current := Ireq
      electrical_frequency_hz := d.electrical_frequency_hz
      mechanical_rpm := d.mechanical_rpm
      flux_per_pole := Phi
      winding_factor := d.kw
      kt_eff := KtE
      back_emf_const := lam
      voltage_utilization := U
      max_rpm_at_vlimit := rpmV
      power_mechanical := Pm
      estimated_dc_current := Idc
      shear_stress_limit_val := tauLim
      dual_plate := d.dual_plate
      mode := modeLabel d
      v_pass := if U.leb (.fin 1) then "YES" else "NO"
      i_pass := match d.phase_current_limit with
        | none => "—"
        | some lim => if Ireq.leb (.fin lim) then "YES" else "NO"
      esc_f_pass := match d.esc_freq_max with
        | none => "—"
        | some fm => if d.electrical_frequency_hz ≤ fm then "YES" else "NO"
      dc_pass := match d.dc_current_limit with
        | none => "—"
        | some lim =>
            if ¬ Idc.isfinite then "—"
            else if Idc.leb (.fin lim) then "YES" else "NO"
      max_torque_at_ilimit := d.phase_current_limit.map (fun lim => KtE.mul (.fin lim)) }

/-! ## Shared inversion and evaluation lemmas -/

theorem validate_coils_ok {c c' : ℤ} (h : validate_coils c = .ok c') :
    c % 3 = 0 ∧ c' = c := by
  unfold validate_coils at h
  split at h
  · exact Except.noConfusion h
  · exact ⟨by omega, (Except.ok.injEq _ _ ▸ h).symm⟩

theorem mkDesign_inv {i : Inputs} {e : Design} (h : mkDesign i = .ok e) :
    i.coils % 3 = 0 ∧
    resolvePoles i = .ok e.poles ∧
    resolveSpeed i e.poles = .ok (e.mechanical_rpm, e.electrical_frequency_hz) ∧
    e.coils = i.coils ∧
    e.input_voltage = i.input_voltage ∧
    e.outer_radius = i.outer_radius ∧
    e.inner_radius = i.outer_radius * 0.58 ∧
    e.desired_torque = i.desired_torque ∧
    e.turns = i.turns ∧
    e.Bavg = i.magnetic_flux_density ∧
    e.kw = i.winding_factor ∧
    e.modulation_index = max 0 (min 1 i.modulation_index) ∧
    e.input_is_vdc = i.input_is_vdc ∧
    e.dual_plate = i.dual_plate ∧
    e.phase_current_limit = i.phase_current_limit ∧
    e.dc_current_limit = i.dc_current_limit ∧
    e.esc_freq_max = i.esc_freq_max ∧
    e.magnets = calculate_magnets e.poles ∧
    e.min_rpm = e.mechanical_rpm := by
  unfold mkDesign at h
  split at h
  · exact Except.noConfusion h
  next coils hv =>
    split at h
    · exact Except.noConfusion h
    next poles hp =>
      split at h
      · exact Except.noConfusion h
      next speed hs =>
        obtain ⟨hc3, hcc⟩ := validate_coils_ok hv
        subst hcc
        cases h
        exact ⟨hc3, hp, hs, rfl, rfl, rfl, rfl, rfl, rfl, rfl, rfl, rfl,
          rfl, rfl, rfl, rfl, rfl, rfl, rfl⟩

theorem EF.div?_isSome (a : EF) {b : EF} (h : b ≠ .fin 0) :
    (EF.div? a b).isSome := by
  cases b <;> cases a <;> simp_all [EF.div?]

theorem pole_area_eq {d : Design} (hp : d.poles ≠ 0) :
    pole_area d = some (calculate_rotor_area d / (d.poles : ℚ)) := by
  simp [pole_area, hp]

theorem flux_per_pole_eq {d : Design} (hp : d.poles ≠ 0) :
    flux_per_pole d =
      some (d.Bavg * (calculate_rotor_area d / (d.poles : ℚ))) := by
  simp [flux_per_pole, pole_area_eq hp]

/-- The auto-turns denominator `4.44 f_e Φ k_w`, with `Φ` spelled out. -/
def emfDenom (d : Design) : ℚ :=
  4.44 * d.electrical_frequency_hz *
    (d.Bavg * (calculate_rotor_area d / (d.poles : ℚ))) * d.kw

theorem emf_fit_turns_eq {d : Design} (hp : d.poles ≠ 0) :
    emf_fit_turns d =
      some (if emfDenom d ≤ 0 then .nan
        else .fin (phase_voltage_rms d / emfDenom d)) := by
  unfold emf_fit_turns
  rw [flux_per_pole_eq hp]
  simp only [bind, Option.bind, emfDenom]
  split <;> rfl

theorem coil_turns_some {d : Design} (hp : d.poles ≠ 0) :
    ∃ N, calculate_number_of_coil_turns d = some N := by
  unfold calculate_number_of_coil_turns
  cases d.turns
  · rw [emf_fit_turns_eq hp]; exact ⟨_, rfl⟩
  · exact ⟨_, rfl⟩

theorem flux_linkage_eq {d : Design} (hp : d.poles ≠ 0) {N : EF}
    (hN : calculate_number_of_coil_turns d = some N) :
    flux_linkage d = some ((N.mul (.fin d.kw)).mul
      (.fin (d.Bavg * (calculate_rotor_area d / (d.poles : ℚ))))) := by
  unfold flux_linkage
  rw [hN, flux_per_pole_eq hp]
  rfl

theorem kt_effective_eq {d : Design} {lam : EF}
    (hlam : flux_linkage d = some lam) :
    kt_effective d = some
      (((EF.fin (1.5 * ((d.poles.fdiv 2 : ℤ) : ℚ))).mul lam).mul
        (.fin (if d.dual_plate then 2 else 1))) := by
  unfold kt_effective kt_single_plate
  rw [hlam]
  rfl

theorem kt_effective_some {d : Design} (hp : d.poles ≠ 0) :
    ∃ kt, kt_effective d = some kt := by
  obtain ⟨N, hN⟩ := coil_turns_some hp
  exact ⟨_, kt_effective_eq (flux_linkage_eq hp hN)⟩

theorem required_current_some {d : Design} (hp : d.poles ≠ 0) :
    ∃ v, calculate_required_current d = some v := by
  obtain ⟨kt, hkt⟩ := kt_effective_some hp
  unfold calculate_required_current
  rw [hkt]
  simp only [bind, Option.bind]
  by_cases hle : kt.leb (.fin 0) = true
  · exact ⟨.nan, by rw [if_pos hle]; rfl⟩
  · have hne : kt ≠ .fin 0 := by
      rintro rfl; simp [EF.leb] at hle
    obtain ⟨v, hv⟩ := Option.isSome_iff_exists.mp
      (EF.div?_isSome (.fin d.desired_torque) hne)
    exact ⟨v, by rw [if_neg hle]; exact hv⟩

theorem total_torque_eq {d : Design} {kt iq : EF}
    (hkt : kt_effective d = some kt)
    (hiq : calculate_required_current d = some iq) :
    calculate_total_torque d = some (kt.mul iq) := by
  unfold calculate_total_torque
  rw [hkt, hiq]
  rfl

theorem total_torque_some {d : Design} (hp : d.poles ≠ 0) :
    ∃ v, calculate_total_torque d = some v := by
  obtain ⟨kt, hkt⟩ := kt_effective_some hp
  obtain ⟨iq, hiq⟩ := required_current_some hp
  exact ⟨_, total_torque_eq hkt hiq⟩

theorem airgap_shear_some {d : Design}
    (hA : calculate_rotor_area d * r_av d ≠ 0) :
    calculate_airgap_shear_stress d =
      some (d.desired_torque / (calculate_rotor_area d * r_av d)) := by
  simp only [calculate_airgap_shear_stress]
  rw [if_neg hA]

theorem predicted_vll_eq {d : Design} (hp : d.poles ≠ 0) {N : EF}
    (hN : calculate_number_of_coil_turns d = some N) :
    predicted_vll d = some ((EF.fin sqrt3).mul
      ((((EF.fin (4.44 * d.electrical_frequency_hz)).mul N).mul
        (.fin (d.Bavg * (calculate_rotor_area d / (d.poles : ℚ))))).mul
        (.fin d.kw))) := by
  unfold predicted_vll
  rw [hN, flux_per_pole_eq hp]
  rfl

/-- `_voltage_utilization` in terms of the predicted line-line EMF. -/
theorem voltage_utilization_eq {d : Design} {V : EF}
    (hV : predicted_vll d = some V) :
    voltage_utilization d =
      if available_line_rms d ≤ 0 then some .inf
      else EF.div? V (.fin (available_line_rms d)) := by
  unfold voltage_utilization
  rw [hV]
  simp only [bind, Option.bind, pure]

theorem voltage_utilization_some {d : Design} (hp : d.poles ≠ 0) :
    ∃ U, voltage_utilization d = some U := by
  obtain ⟨N, hN⟩ := coil_turns_some hp
  rw [voltage_utilization_eq (predicted_vll_eq hp hN)]
  by_cases hle : available_line_rms d ≤ 0
  · exact ⟨.inf, by rw [if_pos hle]⟩
  · have hne : EF.fin (available_line_rms d) ≠ .fin 0 := by
      intro h0
      rw [EF.fin.injEq] at h0
      rw [h0] at hle
      exact hle le_rfl
    obtain ⟨v, hv⟩ := Option.isSome_iff_exists.mp
      (EF.div?_isSome ((EF.fin sqrt3).mul
        ((((EF.fin (4.44 * d.electrical_frequency_hz)).mul N).mul
          (.fin (d.Bavg * (calculate_rotor_area d / (d.poles : ℚ))))).mul
          (.fin d.kw))) hne)
    exact ⟨v, by rw [if_neg hle]; exact hv⟩

theorem max_rpm_some {d : Design} (hp : d.poles ≠ 0) :
    ∃ v, max_rpm_at_vlimit d = some v := by
  obtain ⟨U, hU⟩ := voltage_utilization_some hp
  unfold max_rpm_at_vlimit
  rw [hU]
  simp only [bind, Option.bind]
  by_cases hg : ¬ U.isfinite ∨ U.leb (.fin 0)
  · exact ⟨.nan, by rw [if_pos hg]; rfl⟩
  · rw [not_or, not_not] at hg
    obtain ⟨hfin, hnle⟩ := hg
    obtain ⟨u, rfl⟩ : ∃ u, U = .fin u := by
      cases U <;> simp_all [EF.isfinite]
    have hpos : 0 < u := by
      by_contra hle
      push_neg at hle
      exact hnle (by simp [EF.leb]; exact hle)
    have hne : (EF.fin u).pymax (.fin 1e-9) ≠ .fin 0 := by
      unfold EF.pymax EF.ltb
      split
      · intro h0
        rw [EF.fin.injEq] at h0
        norm_num at h0
      · intro h0
        rw [EF.fin.injEq] at h0
        rw [h0] at hpos
        exact lt_irrefl 0 hpos
    obtain ⟨v, hv⟩ := Option.isSome_iff_exists.mp
      (EF.div?_isSome (.fin d.mechanical_rpm) hne)
    refine ⟨v, ?_⟩
    rw [if_neg ?_]
    · exact hv
    · rw [not_or, not_not]
      exact ⟨hfin, hnle⟩

/-- Full evaluation of `get_calculations` once every fallible intermediate
quantity is known to be defined. -/
theorem get_calculations_eq {d : Design} (hp : d.poles ≠ 0)
    (hA : calculate_rotor_area d * r_av d ≠ 0)
    {N lam KtE Ireq Tpred U rpmV : EF}
    (hN : calculate_number_of_coil_turns d = some N)
    (hlam : flux_linkage d = some lam)
    (hKtE : kt_effective d = some KtE)
    (hIreq : calculate_required_current d = some Ireq)
    (hT : calculate_total_torque d = some Tpred)
    (hU : voltage_utilization d = some U)
    (hrpmV : max_rpm_at_vlimit d = some rpmV) :
    get_calculations d = some
      { poles := d.poles
        magnets := d.magnets
        inner_radius := d.inner_radius
        outer_radius := d.outer_radius
        rotor_area := calculate_rotor_area d
        airgap_shear_stress :=
          d.desired_torque / (calculate_rotor_area d * r_av d)
        minimum_rpm := d.mechanical_rpm
        peak_flux_density := calculate_peak_flux_density d
        number_of_coil_turns := N
        total_torque := Tpred
        required_current := Ireq
        electrical_frequency_hz := d.electrical_frequency_hz
        mechanical_rpm := d.mechanical_rpm
        flux_per_pole := d.Bavg * (calculate_rotor_area d / (d.poles : ℚ))
        winding_factor := d.kw
        kt_eff := KtE
        back_emf_const := lam
        voltage_utilization := U
        max_rpm_at_vlimit := rpmV
        power_mechanical := mechanical_power_W d
        estimated_dc_current := estimated_dc_current d
        shear_stress_limit_val := shear_stress_limit d
        dual_plate := d.dual_plate
        mode := modeLabel d
        v_pass := if U.leb (.fin 1) then "YES" else "NO"
        i_pass := match d.phase_current_limit with
          | none => "—"
          | some lim => if Ireq.leb (.fin lim) then "YES" else "NO"
        esc_f_pass := match d.esc_freq_max with
          | none => "—"
          | some fm => if d.electrical_frequency_hz ≤ fm then "YES" else "NO"
        dc_pass := match d.dc_current_limit with
          | none => "—"
          | some lim =>
              if ¬ (estimated_dc_current d).isfinite then "—"
              else if (estimated_dc_current d).leb (.fin lim) then "YES"
              else "NO"
        max_torque_at_ilimit :=
          d.phase_current_limit.map (fun lim => KtE.mul (.fin lim)) } := by
  unfold get_calculations
  rw [flux_per_pole_eq hp, hN, hlam, hKtE, hIreq, hT, airgap_shear_some hA,
    hU, hrpmV]
  rfl

/-- With the constructor's radius relation, `A * r_av` vanishes only at a
zero outer radius. -/
theorem rotor_core_ne_zero {d : Design}
    (hi : d.inner_radius = d.outer_radius * 0.58)
    (hr : d.outer_radius ≠ 0) :
    calculate_rotor_area d * r_av d ≠ 0 := by
  unfold calculate_rotor_area r_av
  rw [hi]
  have key : pi * (d.outer_radius ^ 2 - (d.outer_radius * 0.58) ^ 2) *
      (0.5 * (d.outer_radius + d.outer_radius * 0.58)) =
      (pi * (131061 / 250000)) * d.outer_radius ^ 3 := by ring
  rw [key]
  have hpi : pi * (131061 / 250000) ≠ 0 := by norm_num [pi]
  exact mul_ne_zero hpi (pow_ne_zero 3 hr)

/-- With a nonzero pole count and a nonzero `A * r_av` product, the result
query is defined (no exception escapes). -/
theorem get_calculations_isSome {d : Design} (hp : d.poles ≠ 0)
    (hA : calculate_rotor_area d * r_av d ≠ 0) :
    (get_calculations d).isSome := by
  obtain ⟨N, hN⟩ := coil_turns_some hp
  obtain ⟨lam, hlam⟩ : ∃ lam, flux_linkage d = some lam :=
    ⟨_, flux_linkage_eq hp hN⟩
  obtain ⟨KtE, hKtE⟩ := kt_effective_some hp
  obtain ⟨Ireq, hIreq⟩ := required_current_some hp
  obtain ⟨Tpred, hT⟩ := total_torque_some hp
  obtain ⟨U, hU⟩ := voltage_utilization_some hp
  obtain ⟨rpmV, hrpmV⟩ := max_rpm_some hp
  rw [get_calculations_eq hp hA hN hlam hKtE hIreq hT hU hrpmV]
  rfl

/-- Inversion: a defined result mapping pins down where each entry came
from. -/
theorem get_calculations_inv {d : Design} {r : Results}
    (h : get_calculations d = some r) :
    d.poles ≠ 0 ∧
    calculate_rotor_area d * r_av d ≠ 0 ∧
    calculate_number_of_coil_turns d = some r.number_of_coil_turns ∧
    kt_effective d = some r.kt_eff ∧
    calculate_required_current d = some r.required_current ∧
    calculate_total_torque d = some r.total_torque ∧
    voltage_utilization d = some r.voltage_utilization ∧
    max_rpm_at_vlimit d = some r.max_rpm_at_vlimit ∧
    r.mode = modeLabel d ∧
    r.v_pass = (if r.voltage_utilization.leb (.fin 1) then "YES" else "NO") ∧
    r.estimated_dc_current = estimated_dc_current d ∧
    r.mechanical_rpm = d.mechanical_rpm ∧
    r.inner_radius = d.inner_radius ∧
    r.outer_radius = d.outer_radius := by
  have hp : d.poles ≠ 0 := by
    intro hp0
    have hnone : flux_per_pole d = none := by
      simp [flux_per_pole, pole_area, hp0]
    unfold get_calculations at h
    rw [hnone] at h
    exact absurd h (by simp [bind, Option.bind])
  obtain ⟨N, hN⟩ := coil_turns_some hp
  have hlam := flux_linkage_eq hp hN
  obtain ⟨KtE, hKtE⟩ := kt_effective_some hp
  obtain ⟨Ireq, hIreq⟩ := required_current_some hp
  obtain ⟨Tpred, hT⟩ := total_torque_some hp
  obtain ⟨U, hU⟩ := voltage_utilization_some hp
  obtain ⟨rpmV, hrpmV⟩ := max_rpm_some hp
  by_cases hA : calculate_rotor_area d * r_av d = 0
  · have hτ : calculate_airgap_shear_stress d = none := by
      simp only [calculate_airgap_shear_stress]
      rw [if_pos hA]
    unfold get_calculations at h
    rw [flux_per_pole_eq hp, hN, hlam, hKtE, hIreq, hT, hτ] at h
    exact absurd h (by simp [bind, Option.bind])
  · rw [get_calculations_eq hp hA hN hlam hKtE hIreq hT hU hrpmV] at h
    injection h with h'
    subst h'
    exact ⟨hp, hA, hN, hKtE, hIreq, hT, hU, hrpmV, rfl, rfl, rfl, rfl,
      rfl, rfl⟩

/-- Classify a successful pole resolution. -/
theorem resolvePoles_ok {i : Inputs} {p : ℤ} (h : resolvePoles i = .ok p) :
    (i.poles = some p ∧ p % 2 = 0 ∧ 4 ≤ p) ∨
    (i.poles = none ∧ p = calculate_poles i.coils) := by
  unfold resolvePoles at h
  cases hip : i.poles with
  | none =>
      rw [hip] at h
      injection h with h'
      exact Or.inr ⟨rfl, h'.symm⟩
  | some q =>
      rw [hip] at h
      dsimp only at h
      split at h
      · exact Except.noConfusion h
      next hcond =>
        push_neg at hcond
        injection h with h'
        subst h'
        exact Or.inl ⟨rfl, hcond.1, hcond.2⟩

/-- Whether an explicitly supplied pole argument passes validation. -/
def polesArgValid (i : Inputs) : Bool :=
  match i.poles with
  | none => true
  | some p => decide (p % 2 = 0 ∧ 4 ≤ p)

theorem validate_coils_ok_of {c : ℤ} (h : c % 3 = 0) :
    validate_coils c = .ok c := by
  unfold validate_coils
  rw [if_neg (by omega)]

theorem resolvePoles_of_valid {i : Inputs} (h : polesArgValid i = true) :
    ∃ p, resolvePoles i = .ok p := by
  unfold polesArgValid at h
  unfold resolvePoles
  cases hip : i.poles with
  | none => exact ⟨_, rfl⟩
  | some p =>
      rw [hip] at h
      dsimp only at h
      have hc := of_decide_eq_true h
      exact ⟨p, by dsimp only; rw [if_neg (by omega)]⟩

/-! ## Concrete design points used in claim witnesses/counterexamples -/

/-- Benign baseline: fixed turns, rpm supplied, heuristic poles. -/
def baseIn : Inputs :=
  { coils := 6, input_voltage := 48, outer_radius := 1/10,
    desired_torque := 2, mechanical_rpm := some 750, turns := some 10 }

def baseEngine : Design := (mkDesign baseIn).toOption.getD default

/-- `coils = 0` passes `validate_coils` and yields heuristic `poles = 0`. -/
def zeroPolesIn : Inputs :=
  { coils := 0, input_voltage := 48, outer_radius := 1/10,
    desired_torque := 2, mechanical_rpm := some 750 }

/-- `outer_radius = 0` is accepted by the constructor. -/
def zeroRadiusIn : Inputs :=
  { coils := 6, input_voltage := 48, outer_radius := 0,
    desired_torque := 2, mechanical_rpm := some 750 }

/-- `coils = 3` passes validation and yields heuristic `poles = 2`. -/
def coils3In : Inputs :=
  { coils := 3, input_voltage := 48, outer_radius := 1/10,
    desired_torque := 2, mechanical_rpm := some 750 }

/-! ## Claims -/

/-- C1 (counterexample).  The claim says the result query never raises for
any input the constructor accepts, including heuristically derived pole
counts.  Two accepted inputs refute it: `coils = 0` gives heuristic
`poles = 0` and `_pole_area` divides by zero; `outer_radius = 0` makes
`calculate_airgap_shear_stress` divide by zero.  In both cases
construction succeeds (`.ok`) and the query raises (`none`). -/
theorem C1_counterexample :
    (mkDesign zeroPolesIn).map get_calculations = .ok none ∧
    (mkDesign zeroRadiusIn).map get_calculations = .ok none := by
  refine ⟨?_, ?_⟩ <;> with_unfolding_all rfl

/-- C1 (amended).  For every engine the constructor accepts whose resolved
pole count is nonzero and whose outer radius is nonzero, the result query
returns a complete result mapping (degenerate quantities inside it are the
non-finite sentinels produced by the guarded branches, never an escaping
exception). -/
theorem C1_query_total {i : Inputs} {e : Design} (h : mkDesign i = .ok e)
    (hp : e.poles ≠ 0) (hr : e.outer_radius ≠ 0) :
    (get_calculations e).isSome := by
  obtain ⟨-, -, -, -, -, hro, hri, -⟩ := mkDesign_inv h
  have hi : e.inner_radius = e.outer_radius * 0.58 := by rw [hri, hro]
  exact get_calculations_isSome hp (rotor_core_ne_zero hi hr)

/-- C1 (witness): the baseline design point constructs and queries fine. -/
theorem C1_witness : (get_calculations baseEngine).isSome :=
  C1_query_total (show mkDesign baseIn = .ok baseEngine from rfl)
    (by decide) (by with_unfolding_all decide)

/-- C2 (counterexample).  `coils = 3` (a positive multiple of 3) with no
explicit poles is accepted, but the heuristic yields `poles = 2`, so the
claimed post-construction invariant `poles ≥ 4` fails. -/
theorem C2_counterexample :
    (mkDesign coils3In).map Design.poles = .ok 2 ∧ ¬ (4 : ℤ) ≤ 2 :=
  ⟨rfl, by decide⟩

/-- C2 (amended).  Post-construction `coils % 3 = 0` and `poles` even always
hold; `poles ≥ 4` additionally holds when poles were explicit or
`coils ≥ 6`; a coil count not divisible by 3 is rejected with the
coil-topology error; an explicit odd or small pole count is rejected with
the pole-topology error.  (The heuristic `poles = (coils/3)*2` gives
`poles < 4` for accepted coil counts `≤ 3`, refuting the original claim.) -/
theorem C2_topology :
    (∀ i e, mkDesign i = .ok e →
      e.coils % 3 = 0 ∧ e.poles % 2 = 0 ∧
      ((i.poles ≠ none ∨ 6 ≤ i.coils) → 4 ≤ e.poles)) ∧
    (∀ i, i.coils % 3 ≠ 0 → mkDesign i = .error .invalidCoils) ∧
    (∀ i p, i.coils % 3 = 0 → i.poles = some p → p % 2 ≠ 0 ∨ p < 4 →
      mkDesign i = .error .invalidPoles) := by
  refine ⟨?_, ?_, ?_⟩
  · intro i e h
    obtain ⟨hc3, hpoles, -, hcoils, -⟩ := mkDesign_inv h
    refine ⟨by rw [hcoils]; exact hc3, ?_, ?_⟩
    · rcases resolvePoles_ok hpoles with ⟨-, heven, -⟩ | ⟨-, hcalc⟩
      · exact heven
      · rw [hcalc]; unfold calculate_poles; omega
    · intro hcase
      rcases resolvePoles_ok hpoles with ⟨-, -, h4⟩ | ⟨hnone, hcalc⟩
      · exact h4
      · rcases hcase with hsome | h6
        · exact absurd hnone hsome
        · obtain ⟨k, hk⟩ := Int.dvd_of_emod_eq_zero hc3
          rw [hcalc]
          unfold calculate_poles
          rw [hk, Int.mul_fdiv_cancel_left k (by norm_num)]
          omega
  · intro i h
    unfold mkDesign validate_coils
    rw [if_pos h]
  · intro i p hc3 hip hbad
    unfold mkDesign
    rw [validate_coils_ok_of hc3]
    unfold resolvePoles
    rw [hip]
    dsimp only
    rw [if_pos hbad]

/-- Bad coil count used to exercise the rejection branch. -/
def coilsBadIn : Inputs :=
  { coils := 4, input_voltage := 48, outer_radius := 1/10,
    desired_torque := 2, mechanical_rpm := some 750 }

/-- Odd explicit pole count used to exercise the rejection branch. -/
def polesBadIn : Inputs :=
  { coils := 6, input_voltage := 48, outer_radius := 1/10,
    desired_torque := 2, poles := some 7, mechanical_rpm := some 750 }

/-- C2 (witness): invariants on the baseline engine, plus both rejections. -/
theorem C2_witness :
    baseEngine.coils % 3 = 0 ∧ baseEngine.poles % 2 = 0 ∧
    4 ≤ baseEngine.poles ∧
    mkDesign coilsBadIn = .error .invalidCoils ∧
    mkDesign polesBadIn = .error .invalidPoles := by
  refine ⟨(C2_topology.1 baseIn baseEngine rfl).1,
    (C2_topology.1 baseIn baseEngine rfl).2.1,
    (C2_topology.1 baseIn baseEngine rfl).2.2 (Or.inr (by decide)),
    C2_topology.2.1 coilsBadIn (by decide),
    C2_topology.2.2 polesBadIn 7 (by decide) rfl (Or.inl (by decide))⟩

/-- Exactly one speed input (the esc frequency), but `coils = 0`, so the
heuristic pole count is 0. -/
def escOnlyZeroPolesIn : Inputs :=
  { coils := 0, input_voltage := 48, outer_radius := 1/10,
    desired_torque := 2, esc_frequency := some 50 }

/-- C3 (counterexample).  With exactly one speed input supplied (the
electrical frequency) but `coils = 0` (accepted; heuristic poles 0), the
derivation `rpm = 120 f / poles` raises `ZeroDivisionError` instead of
deriving the other quantity; and with an invalid coil count and both speed
inputs absent, construction fails with the coil error, not the claimed
missing-speed error. -/
theorem C3_counterexample :
    mkDesign escOnlyZeroPolesIn = .error .zeroDivision ∧
    mkDesign { coilsBadIn with mechanical_rpm := none } =
      .error .invalidCoils ∧
    DesignError.zeroDivision ≠ .missingSpeed ∧
    DesignError.invalidCoils ≠ .missingSpeed :=
  ⟨rfl, rfl, by decide, by decide⟩

/-- C3 (amended).  For inputs that pass the earlier coil/pole validation: if both
speed inputs are absent, construction fails with the missing-speed error;
on every successful construction the speed supplied determines the other
via `f_e = (poles/2)(rpm/60)` resp. `rpm = 120 f_e / poles`; and the
`poles = 8` round-trip examples give `f_e = 50` resp. `rpm = 750`. -/
theorem C3_speed :
    (∀ i, i.coils % 3 = 0 → polesArgValid i = true → i.mechanical_rpm = none →
      i.esc_frequency = none → mkDesign i = .error .missingSpeed) ∧
    (∀ i e r, mkDesign i = .ok e → i.mechanical_rpm = some r →
      e.mechanical_rpm = r ∧
      e.electrical_frequency_hz = ((e.poles : ℚ) / 2) * (r / 60)) ∧
    (∀ i e f, mkDesign i = .ok e → i.mechanical_rpm = none →
      i.esc_frequency = some f →
      e.electrical_frequency_hz = f ∧
      e.mechanical_rpm = (120 * f) / (e.poles : ℚ)) ∧
    (∀ i e, mkDesign i = .ok e → i.poles = some 8 →
      i.mechanical_rpm = some 750 → e.electrical_frequency_hz = 50) ∧
    (∀ i e, mkDesign i = .ok e → i.poles = some 8 → i.mechanical_rpm = none →
      i.esc_frequency = some 50 → e.mechanical_rpm = 750) := by
  have part2 : ∀ i e r, mkDesign i = .ok e → i.mechanical_rpm = some r →
      e.mechanical_rpm = r ∧
      e.electrical_frequency_hz = ((e.poles : ℚ) / 2) * (r / 60) := by
    intro i e r h hm
    obtain ⟨-, -, hs, -⟩ := mkDesign_inv h
    unfold resolveSpeed at hs
    rw [hm] at hs
    dsimp only at hs
    injection hs with hs'
    have h1 := congrArg Prod.fst hs'
    have h2 := congrArg Prod.snd hs'
    dsimp at h1 h2
    exact ⟨h1.symm, h2.symm⟩
  have part3 : ∀ i e f, mkDesign i = .ok e → i.mechanical_rpm = none →
      i.esc_frequency = some f →
      e.electrical_frequency_hz = f ∧
      e.mechanical_rpm = (120 * f) / (e.poles : ℚ) := by
    intro i e f h hm hf
    obtain ⟨-, -, hs, -⟩ := mkDesign_inv h
    unfold resolveSpeed at hs
    rw [hm, hf] at hs
    dsimp only at hs
    split at hs
    · exact Except.noConfusion hs
    · injection hs with hs'
      have h1 := congrArg Prod.fst hs'
      have h2 := congrArg Prod.snd hs'
      dsimp at h1 h2
      exact ⟨h2.symm, h1.symm⟩
  have poles8 : ∀ i e, mkDesign i = .ok e → i.poles = some 8 →
      e.poles = 8 := by
    intro i e h hip
    obtain ⟨-, hpoles, -⟩ := mkDesign_inv h
    rcases resolvePoles_ok hpoles with ⟨hsome, -, -⟩ | ⟨hnone, -⟩
    · rw [hip] at hsome
      injection hsome with hq
      exact hq.symm
    · rw [hip] at hnone
      exact Option.noConfusion hnone
  refine ⟨?_, part2, part3, ?_, ?_⟩
  · intro i hc3 hpv hm hf
    unfold mkDesign
    rw [validate_coils_ok_of hc3]
    obtain ⟨p, hp⟩ := resolvePoles_of_valid hpv
    rw [hp]
    unfold resolveSpeed
    rw [hm, hf]
  · intro i e h hip hm
    rw [(part2 i e 750 h hm).2, poles8 i e h hip]
    norm_num
  · intro i e h hip hm hf
    rw [(part3 i e 50 h hm hf).2, poles8 i e h hip]
    norm_num

/-- Input with neither speed specification. -/
def missingSpeedIn : Inputs :=
  { coils := 6, input_voltage := 48, outer_radius := 1/10,
    desired_torque := 2 }

/-- Explicit 8 poles with rpm 750. -/
def rpm750In : Inputs :=
  { coils := 6, input_voltage := 48, outer_radius := 1/10,
    desired_torque := 2, poles := some 8, mechanical_rpm := some 750 }

/-- Explicit 8 poles with electrical frequency 50 Hz. -/
def freq50In : Inputs :=
  { coils := 6, input_voltage := 48, outer_radius := 1/10,
    desired_torque := 2, poles := some 8, esc_frequency := some 50 }

def rpm750Engine : Design := (mkDesign rpm750In).toOption.getD default

def freq50Engine : Design := (mkDesign freq50In).toOption.getD default

/-- C3 (witness): the missing-speed failure and both round-trip examples. -/
theorem C3_witness :
    mkDesign missingSpeedIn = .error .missingSpeed ∧
    rpm750Engine.electrical_frequency_hz = 50 ∧
    freq50Engine.mechanical_rpm = 750 :=
  ⟨C3_speed.1 missingSpeedIn (by decide) rfl rfl rfl,
    C3_speed.2.2.2.1 rpm750In rpm750Engine rfl rfl rfl,
    C3_speed.2.2.2.2 freq50In freq50Engine rfl rfl rfl rfl⟩

/-- C4.  If the effective torque constant is a finite value `q > 0`, the
required current is exactly `desiredTorque / q` and the predicted total
torque recovers `desiredTorque` exactly; if `q ≤ 0` the required current is
the NaN sentinel. -/
theorem C4_torque_closure (d : Design) (q : ℚ)
    (h : kt_effective d = some (.fin q)) :
    (0 < q →
      calculate_required_current d = some (.fin (d.desired_torque / q)) ∧
      calculate_total_torque d = some (.fin d.desired_torque)) ∧
    (q ≤ 0 → calculate_required_current d = some .nan) := by
  constructor
  · intro hq
    have hleb : (EF.fin q).leb (.fin 0) = false := by
      simp only [EF.leb, decide_eq_false_iff_not]
      exact not_le.mpr hq
    have hreq : calculate_required_current d =
        some (.fin (d.desired_torque / q)) := by
      unfold calculate_required_current
      rw [h]
      simp only [bind, Option.bind, hleb, Bool.false_eq_true, if_false]
      unfold EF.div?
      dsimp only
      rw [if_neg hq.ne']
    refine ⟨hreq, ?_⟩
    rw [total_torque_eq h hreq]
    unfold EF.mul
    dsimp only
    rw [mul_comm, div_mul_cancel₀ _ hq.ne']
  · intro hq
    have hleb : (EF.fin q).leb (.fin 0) = true := by
      simp only [EF.leb, decide_eq_true_iff]
      exact hq
    unfold calculate_required_current
    rw [h]
    simp only [bind, Option.bind, hleb, if_true]
    rfl

/-- The concrete effective torque constant of the baseline design. -/
def baseKt : ℚ :=
  match kt_effective baseEngine with
  | some (.fin q) => q
  | _ => 0

/-- C4 (witness): on the baseline engine the torque constant is positive,
the required current is `T / Kt`, and the predicted torque is exactly the
desired torque. -/
theorem C4_witness :
    0 < baseKt ∧
    calculate_required_current baseEngine =
      some (.fin (baseEngine.desired_torque / baseKt)) ∧
    calculate_total_torque baseEngine =
      some (.fin baseEngine.desired_torque) := by
  have h := (C4_torque_closure baseEngine baseKt
    (by with_unfolding_all rfl)).1 (by with_unfolding_all decide)
  exact ⟨by with_unfolding_all decide, h.1, h.2⟩

/-- C5 (counterexample).  In auto-turns mode with heuristic `poles = 0`
(accepted input `coils = 0`), the turns computation raises a division
fault (`_pole_area` divides by the pole count) instead of producing a
non-finite sentinel. -/
theorem C5_counterexample :
    zeroPolesIn.turns = none ∧
    (mkDesign zeroPolesIn).map calculate_number_of_coil_turns =
      .ok none ∧
    (none : Option EF) ≠ some .nan := by
  refine ⟨rfl, by with_unfolding_all rfl, by decide⟩

/-- C5 (amended).  Fixed turns are used verbatim with the turns-limited mode label;
otherwise the auto mode label is used and the EMF fit gives
`E_ph / (4.44 f_e Φ k_w)` for a positive denominator and the NaN sentinel
for a non-positive one; the result mapping's mode entry agrees. -/
theorem C5_turns_mode :
    (∀ d t, d.turns = some t →
      calculate_number_of_coil_turns d = some (.fin t) ∧
      modeLabel d = "Turns-limited (fixed N)") ∧
    (∀ d, d.turns = none →
      modeLabel d = "Voltage-limited (auto N)" ∧
      (d.poles ≠ 0 →
        (0 < emfDenom d →
          calculate_number_of_coil_turns d =
            some (.fin (phase_voltage_rms d / emfDenom d))) ∧
        (emfDenom d ≤ 0 →
          calculate_number_of_coil_turns d = some .nan))) ∧
    (∀ d r, get_calculations d = some r → r.mode = modeLabel d) := by
  refine ⟨?_, ?_, ?_⟩
  · intro d t ht
    constructor
    · unfold calculate_number_of_coil_turns
      rw [ht]
    · unfold modeLabel
      rw [ht]
      rfl
  · intro d ht
    refine ⟨by unfold modeLabel; rw [ht]; rfl, ?_⟩
    intro hp
    have hauto : calculate_number_of_coil_turns d = emf_fit_turns d := by
      unfold calculate_number_of_coil_turns
      rw [ht]
    constructor
    · intro hpos
      rw [hauto, emf_fit_turns_eq hp, if_neg (not_le.mpr hpos)]
    · intro hle
      rw [hauto, emf_fit_turns_eq hp, if_pos hle]
  · intro d r h
    exact (get_calculations_inv h).2.2.2.2.2.2.2.2.1

/-- Baseline without fixed turns (auto/voltage-limited mode). -/
def autoIn : Inputs :=
  { coils := 6, input_voltage := 48, outer_radius := 1/10,
    desired_torque := 2, mechanical_rpm := some 750 }

def autoEngine : Design := (mkDesign autoIn).toOption.getD default

/-- C5 (witness): fixed-turns and auto-turns behaviour at concrete
designs. -/
theorem C5_witness :
    calculate_number_of_coil_turns baseEngine = some (.fin 10) ∧
    modeLabel baseEngine = "Turns-limited (fixed N)" ∧
    modeLabel autoEngine = "Voltage-limited (auto N)" ∧
    calculate_number_of_coil_turns autoEngine =
      some (.fin (phase_voltage_rms autoEngine / emfDenom autoEngine)) := by
  have h1 := C5_turns_mode.1 baseEngine 10 rfl
  have h2 := C5_turns_mode.2.1 autoEngine rfl
  exact ⟨h1.1, h1.2, h2.1,
    (h2.2 (by decide)).1 (by with_unfolding_all decide)⟩

/-- AC-mode input with zero supply voltage. -/
def zeroVoltIn : Inputs :=
  { coils := 6, input_voltage := 0, outer_radius := 1/10,
    desired_torque := 2, mechanical_rpm := some 750 }

def zeroVoltEngine : Design := (mkDesign zeroVoltIn).toOption.getD default

def zeroVoltPred : EF := (predicted_vll zeroVoltEngine).getD .nan

/-- Zero supply voltage together with heuristic `poles = 0`. -/
def zeroPolesZeroVoltIn : Inputs :=
  { coils := 0, input_voltage := 0, outer_radius := 1/10,
    desired_torque := 2, mechanical_rpm := some 750 }

/-- C6 (counterexample).  A constructed engine with available voltage ≤ 0
whose utilization is nevertheless a division fault, not `+∞`: the
`poles = 0` engine faults in `_flux_per_pole` before the voltage guard. -/
theorem C6_counterexample :
    (mkDesign zeroPolesZeroVoltIn).map (fun e =>
      (decide (available_line_rms e ≤ 0), voltage_utilization e)) =
      .ok (true, none) ∧
    (none : Option EF) ≠ some .inf := by
  refine ⟨by with_unfolding_all rfl, by decide⟩

/-- C6 (amended).  The utilization is the predicted line-line EMF over the available
line-line RMS when the latter is positive, and `+∞` (not a fault) when it
is ≤ 0; the voltage pass flag is `"YES"` exactly when `U ≤ 1` in float
comparison; the concrete zero-voltage AC engine yields `(+∞, "NO")`. -/
theorem C6_utilization :
    (∀ d V, predicted_vll d = some V →
      (available_line_rms d ≤ 0 → voltage_utilization d = some .inf) ∧
      (∀ p : ℚ, 0 < available_line_rms d → V = .fin p →
        voltage_utilization d =
          some (.fin (p / available_line_rms d)))) ∧
    (∀ d r, get_calculations d = some r →
      (r.v_pass = "YES" ↔ r.voltage_utilization.leb (.fin 1) = true)) ∧
    (mkDesign zeroVoltIn).map (fun e => (get_calculations e).map
      (fun r => (r.voltage_utilization, r.v_pass))) =
      .ok (some (.inf, "NO")) := by
  refine ⟨?_, ?_, ?_⟩
  · intro d V hV
    constructor
    · intro hle
      rw [voltage_utilization_eq hV, if_pos hle]
    · intro p hpos hfin
      subst hfin
      rw [voltage_utilization_eq hV, if_neg (not_le.mpr hpos)]
      unfold EF.div?
      dsimp only
      rw [if_neg hpos.ne']
  · intro d r h
    have hv := (get_calculations_inv h).2.2.2.2.2.2.2.2.2.1
    rw [hv]
    by_cases hleb : r.voltage_utilization.leb (.fin 1) = true
    · rw [if_pos hleb]
      exact ⟨fun _ => hleb, fun _ => rfl⟩
    · rw [if_neg hleb]
      constructor
      · intro hcontr
        exact absurd hcontr (by decide)
      · intro hcontr
        exact absurd hcontr hleb
  · with_unfolding_all rfl

/-- C6 (witness): the zero-voltage engine's utilization is the `+∞`
sentinel, via the general theorem. -/
theorem C6_witness : voltage_utilization zeroVoltEngine = some .inf :=
  (C6_utilization.1 zeroVoltEngine zeroVoltPred
    (by with_unfolding_all rfl)).1 (by with_unfolding_all decide)

/-- C7.  The magnet count of every constructed engine is the smallest
multiple of 4 that is `≥ 2 * poles` (found by the upward unit-step
search), and explicit `poles = 8` gives 16 magnets. -/
theorem C7_magnets (i : Inputs) (e : Design) (h : mkDesign i = .ok e) :
    (e.magnets % 4 = 0 ∧ 2 * e.poles ≤ e.magnets ∧
      ∀ m : ℤ, 2 * e.poles ≤ m → m % 4 = 0 → e.magnets ≤ m) ∧
    (i.poles = some 8 → e.magnets = 16) := by
  obtain ⟨-, hpol, -, -, -, -, -, -, -, -, -, -, -, -, -, -, -, hmag, -⟩ :=
    mkDesign_inv h
  rw [hmag]
  unfold calculate_magnets
  have hspec := nudge4_spec (e.poles * 2)
  refine ⟨⟨hspec.1, ?_, ?_⟩, ?_⟩
  · have := hspec.2.1
    omega
  · intro m hm h4
    exact hspec.2.2 m (by omega) h4
  · intro hip
    have hp8 : e.poles = 8 := by
      rcases resolvePoles_ok hpol with ⟨hsome, -, -⟩ | ⟨hnone, -⟩
      · rw [hip] at hsome
        injection hsome with hq
        exact hq.symm
      · rw [hip] at hnone
        exact Option.noConfusion hnone
    rw [hp8]
    decide

/-- C7 (witness): the 8-pole engine has 16 magnets, the least multiple of 4
at or above 2·8. -/
theorem C7_witness :
    rpm750Engine.magnets % 4 = 0 ∧
    2 * rpm750Engine.poles ≤ rpm750Engine.magnets ∧
    rpm750Engine.magnets = 16 := by
  have h := C7_magnets rpm750In rpm750Engine rfl
  exact ⟨h.1.1, h.1.2.1, h.2 rfl⟩

/-- C8 (counterexample).  At zero input voltage the utilization is `+∞` and
`_max_rpm_at_vlimit` returns the NaN sentinel, whereas the claimed formula
`mechanicalRpm / max(U, 1e-9)` evaluates in float semantics to
`rpm / ∞ = 0`; so the claim's "holds for all utilization values, including
`U = +∞` and `U ≤ 0`" is false. -/
theorem C8_counterexample :
    (mkDesign zeroVoltIn).map (fun e =>
      (voltage_utilization e, max_rpm_at_vlimit e,
        (voltage_utilization e).map (fun U =>
          EF.div? (.fin e.mechanical_rpm) (U.pymax (.fin 1e-9))))) =
      .ok (some .inf, some .nan, some (some (.fin 0))) ∧
    some EF.nan ≠ some (EF.fin 0) :=
  ⟨by with_unfolding_all rfl, by decide⟩

/-- C8 (amended).  `_max_rpm_at_vlimit` equals
`mechanicalRpm / max(U, 1e-9)` whenever the utilization `U` is finite and
strictly positive; for non-finite or non-positive `U` it is the NaN
sentinel instead. -/
theorem C8_max_rpm (d : Design) :
    (∀ u : ℚ, voltage_utilization d = some (.fin u) → 0 < u →
      max_rpm_at_vlimit d =
        some (.fin (d.mechanical_rpm / max u 1e-9))) ∧
    (∀ U, voltage_utilization d = some U →
      U.isfinite = false ∨ U.leb (.fin 0) = true →
      max_rpm_at_vlimit d = some .nan) := by
  constructor
  · intro u hU hu
    unfold max_rpm_at_vlimit
    rw [hU]
    simp only [bind, Option.bind]
    have hguard : ¬ (¬ (EF.fin u).isfinite = true ∨
        (EF.fin u).leb (.fin 0) = true) := by
      rintro (h1 | h2)
      · exact h1 rfl
      · exact absurd (of_decide_eq_true h2) (not_le.mpr hu)
    rw [if_neg hguard]
    have hmax : (EF.fin u).pymax (.fin 1e-9) = .fin (max u 1e-9) := by
      unfold EF.pymax EF.ltb
      by_cases hlt : u < 1e-9
      · rw [if_pos (decide_eq_true hlt), max_eq_right hlt.le]
      · rw [if_neg (fun hc => hlt (of_decide_eq_true hc)),
          max_eq_left (not_lt.mp hlt)]
    rw [hmax]
    unfold EF.div?
    dsimp only
    rw [if_neg (lt_max_iff.mpr (Or.inl hu)).ne']
  · intro U hU hcase
    unfold max_rpm_at_vlimit
    rw [hU]
    simp only [bind, Option.bind]
    rw [if_pos ?_]
    · rfl
    · rcases hcase with h1 | h2
      · exact Or.inl (by rw [h1]; exact Bool.false_ne_true)
      · exact Or.inr h2

/-- The concrete (finite, positive) utilization of the auto-turns design:
in auto mode the turns are fitted to the available voltage, so the
utilization is exactly 1. -/
def autoU : ℚ :=
  match voltage_utilization autoEngine with
  | some (.fin u) => u
  | _ => 0

/-- C8 (witness): on the auto-turns engine the utilization is finite and
positive and the max-RPM entry is `rpm / max(U, 1e-9)`. -/
theorem C8_witness :
    0 < autoU ∧
    max_rpm_at_vlimit autoEngine =
      some (.fin (autoEngine.mechanical_rpm / max autoU 1e-9)) :=
  ⟨by with_unfolding_all decide,
    (C8_max_rpm autoEngine).1 autoU (by with_unfolding_all rfl)
      (by with_unfolding_all decide)⟩

/-- C9 (counterexample).  `outer_radius = 0` is accepted by the
constructor; then `inner = 0.58 * 0 = 0 = outer`, so the claimed invariant
`inner < outer` fails on a constructed engine. -/
theorem C9_counterexample :
    (mkDesign zeroRadiusIn).map (fun e => (e.inner_radius, e.outer_radius)) =
      .ok (0, 0) ∧ ¬ ((0 : ℚ) < 0) :=
  ⟨by with_unfolding_all rfl, by norm_num⟩

/-- C9 (amended).  Every constructed engine has
`inner = 0.58 * outer`, established at construction; `inner < outer` holds
whenever `outer > 0`; and the result mapping reports exactly the
constructed radii (nothing mutates them afterwards — the engine state is
immutable in the model). -/
theorem C9_radii (i : Inputs) (e : Design) (h : mkDesign i = .ok e) :
    e.inner_radius = 0.58 * e.outer_radius ∧
    (0 < e.outer_radius → e.inner_radius < e.outer_radius) ∧
    (∀ r, get_calculations e = some r →
      r.inner_radius = e.inner_radius ∧ r.outer_radius = e.outer_radius) := by
  obtain ⟨-, -, -, -, -, hro, hri, -⟩ := mkDesign_inv h
  have heq : e.inner_radius = 0.58 * e.outer_radius := by
    rw [hri, hro, mul_comm]
  refine ⟨heq, ?_, ?_⟩
  · intro hpos
    rw [heq]
    have h58 : (0.58 : ℚ) * e.outer_radius < 1 * e.outer_radius :=
      mul_lt_mul_of_pos_right (by norm_num) hpos
    simpa using h58
  · intro r hr
    have inv := get_calculations_inv hr
    exact ⟨inv.2.2.2.2.2.2.2.2.2.2.2.2.1, inv.2.2.2.2.2.2.2.2.2.2.2.2.2⟩

/-- C9 (witness): radius relation and strict inequality on the baseline
engine. -/
theorem C9_witness :
    baseEngine.inner_radius = 0.58 * baseEngine.outer_radius ∧
    baseEngine.inner_radius < baseEngine.outer_radius := by
  have h := C9_radii baseIn baseEngine rfl
  exact ⟨h.1, h.2.1 (by with_unfolding_all decide)⟩

/-- Both speed inputs supplied but an invalid coil count. -/
def bothSpeedBadCoilsIn : Inputs :=
  { coils := 4, input_voltage := 48, outer_radius := 1/10,
    desired_torque := 2, mechanical_rpm := some 750,
    esc_frequency := some 50 }

/-- C10 (counterexample).  Both speed inputs are supplied non-empty, yet
construction fails (coil validation precedes speed resolution), refuting
the unconditional "construction succeeds" part of the claim. -/
theorem C10_counterexample :
    bothSpeedBadCoilsIn.mechanical_rpm = some 750 ∧
    bothSpeedBadCoilsIn.esc_frequency = some 50 ∧
    mkDesign bothSpeedBadCoilsIn = .error .invalidCoils :=
  ⟨rfl, rfl, rfl⟩

/-- C10 (amended).  When both speed inputs are supplied and the topology
validation passes, construction succeeds, `mechanical_rpm` takes priority
(`f_e = (poles/2)(rpm/60)`), and the supplied `esc_frequency` value has no
effect whatsoever on the constructed engine. -/
theorem C10_rpm_priority :
    (∀ (i : Inputs) (r f : ℚ), i.mechanical_rpm = some r →
      i.esc_frequency = some f →
      i.coils % 3 = 0 → polesArgValid i = true →
      ∃ e, mkDesign i = .ok e ∧ e.mechanical_rpm = r ∧
        e.electrical_frequency_hz = ((e.poles : ℚ) / 2) * (r / 60)) ∧
    (∀ (i : Inputs) (f f' : ℚ), i.mechanical_rpm.isSome →
      mkDesign { i with esc_frequency := some f } =
        mkDesign { i with esc_frequency := some f' }) := by
  constructor
  · intro i r f hm hf hc3 hpv
    obtain ⟨p, hp⟩ := resolvePoles_of_valid hpv
    unfold mkDesign
    rw [validate_coils_ok_of hc3, hp]
    unfold resolveSpeed
    rw [hm]
    dsimp only
    exact ⟨_, rfl, rfl, rfl⟩
  · intro i f f' hsome
    obtain ⟨r, hr⟩ := Option.isSome_iff_exists.mp hsome
    unfold mkDesign validate_coils resolvePoles resolveSpeed
    dsimp only
    rw [hr]

/-- Both speed inputs supplied on a valid topology. -/
def bothSpeedIn : Inputs :=
  { coils := 6, input_voltage := 48, outer_radius := 1/10,
    desired_torque := 2, mechanical_rpm := some 750,
    esc_frequency := some 999 }

def bothSpeedEngine : Design := (mkDesign bothSpeedIn).toOption.getD default

/-- C10 (witness): both-supplied construction succeeds with rpm priority,
and the esc value is irrelevant. -/
theorem C10_witness :
    mkDesign bothSpeedIn = .ok bothSpeedEngine ∧
    bothSpeedEngine.mechanical_rpm = 750 ∧
    bothSpeedEngine.electrical_frequency_hz =
      ((bothSpeedEngine.poles : ℚ) / 2) * (750 / 60) ∧
    mkDesign { bothSpeedIn with esc_frequency := some 1 } =
      mkDesign { bothSpeedIn with esc_frequency := some 2 } := by
  obtain ⟨e, he, h1, h2⟩ :=
    C10_rpm_priority.1 bothSpeedIn 750 999 rfl rfl (by decide) rfl
  have heval : mkDesign bothSpeedIn = .ok bothSpeedEngine := rfl
  rw [heval] at he
  injection he with he'
  subst he'
  exact ⟨heval, h1, h2, C10_rpm_priority.2 bothSpeedIn 1 2 rfl⟩

end AxialMotor
